import Mathlib

/-!
Shallow embedding of the congestion-aware forwarding strategy
(src/model/fw/congestion-aware.cc) and the consumer application
(src/apps/ndn-consumer.cc, src/apps/ndn-consumer-rate.cc) of this
ndnSIM repository, together with theorems checking the repository's
specification against this embedding.

Conventions:
* machine doubles are modelled as exact rationals;
* uint32 counters are modelled as naturals (with an explicit mod where
  an overflow could matter, e.g. the congestion-window sum);
* collaborators whose code is not part of the four source files
  (PIT entry operations, FIB face-metric mutation, the transport send,
  std:: containers) are modelled from the specification's contracts in
  Section 6 and carry a doc comment saying so.
-/

namespace NdnSim

abbrev FaceId := Nat

/-- One entry of a FIB entry's face list: `fib::FaceMetric` with its
congestion window (`GetCwnd`).  The list order models the fixed
`fib::i_nth` enumeration order used by `DoPropagateInterest`. -/
structure FaceMetric where
  face : FaceId
  cwnd : Nat
deriving DecidableEq

/-- Nack reason codes of `Interest` (`NACK_LOOP`, `NACK_CONGESTION`,
`NACK_GIVEUP_PIT`, and `NORMAL_INTEREST` for a non-nack interest). -/
inductive NackCode where
  | nackLoop
  | nackCongestion
  | nackGiveupPit
  | normalInterest
deriving DecidableEq

/-- The part of an `Interest` header relevant to the claims: an opaque
name and the nack-type field mutated by `SetNack`. -/
structure Interest where
  name : Nat
  nack : NackCode
deriving DecidableEq

/-- The part of a packet relevant to the claims: the optional
`FwHopCountTag` (`PeekPacketTag`/`AddPacketTag`). -/
structure Packet where
  hopCountTag : Option Nat
deriving DecidableEq

/-- One outgoing-face record of a PIT entry with its per-face
waiting-in-vain flag. -/
structure PitOutgoing where
  face : FaceId
  waitingInVain : Bool
deriving DecidableEq

/-- The part of `pit::Entry` used by the forwarder: the outgoing-face
set with in-vain flags and the incoming-face set. -/
structure PitEntry where
  outgoing : List PitOutgoing
  incoming : List FaceId
deriving DecidableEq

/-- Modelled from the spec: `markInVain(face)` of the pending-request
entry — sets the in-vain flag of the addressed outgoing face (source
`pit::Entry::SetWaitingInVain`, not among the four source files).
A null face pointer addresses no outgoing record. -/
def PitEntry.setWaitingInVain (e : PitEntry) (f : Option FaceId) : PitEntry :=
  match f with
  | none => e
  | some f =>
      { e with outgoing :=
          e.outgoing.map fun o =>
            if o.face = f then { o with waitingInVain := true } else o }

/-- Modelled from the spec: `allOutgoingInVain()` of the pending-request
entry (source `pit::Entry::AreAllOutgoingInVain`, not among the four
source files). -/
def PitEntry.areAllOutgoingInVain (e : PitEntry) : Bool :=
  e.outgoing.all (·.waitingInVain)

/-- Modelled from the spec: `removeIncoming(face)` of the pending-request
entry (source `pit::Entry::RemoveIncoming`, not among the four source
files).  A null face pointer matches no incoming record. -/
def PitEntry.removeIncoming (e : PitEntry) (f : Option FaceId) : PitEntry :=
  match f with
  | none => e
  | some f => { e with incoming := e.incoming.filter (· ≠ f) }

/-- Plain sum of the congestion windows of a face list. -/
def sumCwnd (faces : List FaceMetric) : Nat :=
  (faces.map (·.cwnd)).sum

/-- The `total_cwnd` accumulated by `DoPropagateInterest` in a `uint32_t`:
chained mod-2^32 additions equal a single final reduction. -/
def totalCwnd (faces : List FaceMetric) : Nat :=
  sumCwnd faces % 2 ^ 32

/-- Sum of the congestion windows of the first `k` faces. -/
def prefixCwnd (faces : List FaceMetric) (k : Nat) : Nat :=
  sumCwnd (faces.take k)

/-- Outcome of one `DoPropagateInterest` call, recording the effects on
the collaborators: the return value, the faces handed to
`TrySendOutInterest` (in call order) and the faces whose window was
decreased through `DecreaseCwnd`. -/
structure PropagateResult where
  success : Bool
  attempted : List FaceId
  decreased : List FaceId
deriving DecidableEq

/-- The weighted-roulette walk of `DoPropagateInterest`: accumulate
`p_sum += cwnd / total` over the faces in enumeration order; at the
first face with `p_random <= p_sum` call `TrySendOutInterest` (modelled
by the abstract outcome `trySend`, per the spec's transport contract:
send may fail synchronously); on failure `DecreaseCwnd` that face; in
either case stop (`break`). -/
def propagateLoop (trySend : FaceId → Bool) (total : Nat) (r : ℚ) :
    List FaceMetric → ℚ → PropagateResult
  | [], _ => ⟨false, [], []⟩
  | m :: rest, pSum =>
      let pSum2 := pSum + (m.cwnd : ℚ) / (total : ℚ)
      if r ≤ pSum2 then
        let s := trySend m.face
        ⟨s, [m.face], if s then [] else [m.face]⟩
      else
        propagateLoop trySend total r rest pSum2

/-- `CongestionAware::DoPropagateInterest` on the face list of the PIT
entry's FIB entry, for a uniform draw `r` in `[0,1)`. -/
def doPropagateInterest (trySend : FaceId → Bool) (r : ℚ)
    (faces : List FaceMetric) : PropagateResult :=
  propagateLoop trySend (totalCwnd faces) r faces 0

/-- Outcome of one `DidReceiveValidNack` call: the PIT entry afterwards,
the faces whose congestion window was decreased (`DecreaseCwnd`), whether
the nack-suppressed observable `m_dropNacks` fired, and the argument of
the `DidExhaustForwardingOptions` invocation if it happened (incoming
face, normalized header, hop-count tag carried over to the rebuilt
packet). -/
structure NackResult where
  pit : PitEntry
  cwndDecreased : List FaceId
  dropNack : Bool
  exhausted : Option (Option FaceId × Interest × Option Nat)
deriving DecidableEq

/-- `CongestionAware::DidReceiveValidNack`, with effects on the PIT
entry and FIB windows recorded in the result. -/
def didReceiveValidNack (inFace : Option FaceId) (nackCode : NackCode)
    (header : Interest) (origPacket : Packet) (pitEntry : PitEntry) :
    NackResult :=
  let dec : List FaceId :=
    match inFace with
    | some f =>
        if nackCode = NackCode.nackCongestion ∨
           nackCode = NackCode.nackGiveupPit then [f] else []
    | none => []
  let pit1 : PitEntry :=
    if nackCode = NackCode.nackGiveupPit then
      pitEntry.removeIncoming inFace
    else pitEntry
  if nackCode = NackCode.nackLoop ∨ nackCode = NackCode.nackCongestion ∨
     nackCode = NackCode.nackGiveupPit then
    let pit2 := pit1.setWaitingInVain inFace
    if pit2.areAllOutgoingInVain then
      let nonNackHeader : Interest := { header with nack := NackCode.normalInterest }
      { pit := pit2, cwndDecreased := dec, dropNack := false,
        exhausted := some (inFace, nonNackHeader, origPacket.hopCountTag) }
    else
      { pit := pit2, cwndDecreased := dec, dropNack := true, exhausted := none }
  else
    { pit := pit1, cwndDecreased := dec, dropNack := false, exhausted := none }

/-! ## Consumer (src/apps/ndn-consumer.cc, src/apps/ndn-consumer-rate.cc) -/

/-- The `RequestMode` enumeration of `Consumer`. -/
inductive RequestMode where
  | sequential
  | zipfMandelbrot
deriving DecidableEq

/-- One entry of the `SeqTimeoutsContainer`: sequence number and the
time it was recorded. -/
structure SeqTimeout where
  seq : Nat
  time : ℚ
deriving DecidableEq

/-- Modelled from the spec: insertion into a `SeqTimeoutsContainer`
(a boost multi-index container declared in ndn-consumer.h, which is not
among the four source files: unique ordering by sequence number plus an
`i_timestamp` ordering by time).  The list is kept in `i_timestamp`
order; inserting an already-present sequence number is a no-op of the
unique index. -/
def insertByTime (l : List SeqTimeout) (e : SeqTimeout) : List SeqTimeout :=
  match l with
  | [] => [e]
  | x :: xs => if x.time ≤ e.time then x :: insertByTime xs e else e :: x :: xs

/-- Insert respecting the unique-by-sequence index: no-op when the
sequence number is already present. -/
def insertSeqTimeout (l : List SeqTimeout) (e : SeqTimeout) : List SeqTimeout :=
  if l.any (·.seq = e.seq) then l else insertByTime l e

/-- Erase by sequence number (`container.erase (seq)`). -/
def eraseSeq (l : List SeqTimeout) (s : Nat) : List SeqTimeout :=
  l.filter (·.seq ≠ s)

/-- Modelled from the spec: `std::set<uint32_t>` insertion for
`m_retxSeqs` — sorted, deduplicated. -/
def setInsert (l : List Nat) (s : Nat) : List Nat :=
  match l with
  | [] => [s]
  | x :: xs =>
      if s < x then s :: x :: xs
      else if s = x then x :: xs
      else x :: setInsert xs s

/-- Modelled from the spec: `std::map<uint32_t,uint32_t>` lookup with
`operator[]` default value 0, for `m_seqRetxCounts`. -/
def mapGet (l : List (Nat × Nat)) (s : Nat) : Nat :=
  match l.find? (·.1 = s) with
  | some p => p.2
  | none => 0

/-- The increment `m_seqRetxCounts[seq]++`: `operator[]`
default-constructs the value 0 when absent, then the increment runs. -/
def mapBump (l : List (Nat × Nat)) (s : Nat) : List (Nat × Nat) :=
  match l with
  | [] => [(s, 1)]
  | p :: ps => if p.1 = s then (p.1, p.2 + 1) :: ps else p :: mapBump ps s

/-- The sentinel `std::numeric_limits<uint32_t>::max ()` meaning
"no maximum sequence bound configured". -/
def uint32Max : Nat := 4294967295

/-- The consumer-session state: the `Consumer` members touched by the
claims, plus the `ConsumerRate` pacing members (`m_firstTime`,
`m_frequency`, and whether `m_sendEvent.IsRunning ()`). -/
structure ConsumerState where
  m_active : Bool
  m_seq : Nat
  m_seqMax : Nat
  m_requestMode : RequestMode
  m_N : Nat
  m_q : ℚ
  m_s : ℚ
  m_Pcum : List ℚ
  m_retxSeqs : List Nat
  m_seqTimeouts : List SeqTimeout
  m_seqLastDelay : List SeqTimeout
  m_seqFullDelay : List SeqTimeout
  m_seqRetxCounts : List (Nat × Nat)
  m_firstTime : Bool
  m_sendEventRunning : Bool
  m_frequency : ℚ
deriving DecidableEq

/-- A freshly constructed consumer (the `Consumer` constructor defaults,
with `ConsumerRate` pacing fields). -/
def initConsumer : ConsumerState :=
  { m_active := true
    m_seq := 0
    m_seqMax := 0
    m_requestMode := RequestMode.sequential
    m_N := 1000
    m_q := 0
    m_s := 3 / 4
    m_Pcum := []
    m_retxSeqs := []
    m_seqTimeouts := []
    m_seqLastDelay := []
    m_seqFullDelay := []
    m_seqRetxCounts := []
    m_firstTime := true
    m_sendEventRunning := false
    m_frequency := 10 }

/-- `Consumer::WillSendOutInterest`: record the send at time `now` —
insert into `m_seqTimeouts` and `m_seqFullDelay` (unique index: no-op if
present), refresh `m_seqLastDelay` (erase then insert), and
`m_seqRetxCounts[seq]++`.  The external `m_rtt->SentSeq` notification is
not modelled. -/
def willSendOutInterest (now : ℚ) (s : Nat) (st : ConsumerState) :
    ConsumerState :=
  { st with
    m_seqTimeouts := insertSeqTimeout st.m_seqTimeouts ⟨s, now⟩
    m_seqFullDelay := insertSeqTimeout st.m_seqFullDelay ⟨s, now⟩
    m_seqLastDelay := insertSeqTimeout (eraseSeq st.m_seqLastDelay s) ⟨s, now⟩
    m_seqRetxCounts := mapBump st.m_seqRetxCounts s }

/-- `ConsumerRate::ScheduleNextPacket`: on the very first call schedule
the send at delay 0; afterwards, only when no send event is pending,
schedule at delay `1.0 / m_frequency`; otherwise do nothing.  The second
component is the delay of the newly scheduled event, if any. -/
def scheduleNextPacket (st : ConsumerState) : ConsumerState × Option ℚ :=
  if st.m_firstTime then
    ({ st with m_firstTime := false, m_sendEventRunning := true }, some 0)
  else if st.m_sendEventRunning = false then
    ({ st with m_sendEventRunning := true }, some (1 / st.m_frequency))
  else
    (st, none)

/-- The scan loop of `Consumer::CheckRetxTimeout` over the
`i_timestamp` (ascending `time`) view of `m_seqTimeouts`: while the
oldest entry satisfies `entry->time + rto <= now`, erase it and signal
`OnTimeout` for its sequence; stop at the first unexpired entry.
Returns the timed-out sequences in signal order and the remaining
ledger. -/
def checkTimeoutsLoop (now rto : ℚ) :
    List SeqTimeout → List Nat × List SeqTimeout
  | [] => ([], [])
  | e :: rest =>
      if e.time + rto ≤ now then
        let r := checkTimeoutsLoop now rto rest
        (e.seq :: r.1, r.2)
      else
        ([], e :: rest)

/-- `Consumer::GetNextSeq` for one nonzero uniform draw `r`: linear scan
of the cumulative table, returning the first index `i` in `[1, m_N]`
with `r <= m_Pcum[i]`, defaulting to `content_index = 1` when no index
satisfies the test. -/
def getNextSeq (pcum : List ℚ) (n : Nat) (r : ℚ) : Nat :=
  match (List.range n).find? (fun j => r ≤ pcum.getD (j + 1) 0) with
  | some j => j + 1
  | none => 1

/-- The Zipf-mode drawing of `Consumer::SendPacket`:
`while (m_seqTimeouts.count (seq = GetNextSeq ()))` together with the
zero-redraw loop inside `GetNextSeq`.  The random stream is the list
`draws`; each `GetNextSeq` call consumes draws until a nonzero one, then
the duplicate test against the pending ledger repeats the call; `none`
means the supplied stream ran out with the loop still running. -/
def zipfPick (pcum : List ℚ) (n : Nat) (pending : List SeqTimeout) :
    List ℚ → Option Nat
  | [] => none
  | r :: rest =>
      if r = 0 then zipfPick pcum n pending rest
      else
        let s := getNextSeq pcum n r
        if pending.any (·.seq = s) then zipfPick pcum n pending rest
        else some s

/-- Result of one `Consumer::SendPacket` call: `ok st issued` is a
normal return (`issued` the sequence handed to the transport, if any);
`assertExhausted` is the fatal
`NS_ASSERT_MSG (m_seqTimeouts.size () < GetNumberOfContents ())`;
`drawsExhausted` means the duplicate-rejection loop was still running
when the supplied random stream ended. -/
inductive SendResult where
  | ok : ConsumerState → Option Nat → SendResult
  | assertExhausted : SendResult
  | drawsExhausted : SendResult
deriving DecidableEq

/-- `Consumer::SendPacket` at time `now` with random stream `draws`:
return if inactive.  `seq` starts at the `uint32_t` sentinel and a
non-empty retransmit queue overwrites it with its smallest element,
which is erased from the queue.  The source then tests
`seq == std::numeric_limits<uint32_t>::max ()`: when it holds — the
queue was empty, or the popped retransmission itself equals the
sentinel and is thereby misread as "no retransmission" and silently
dropped — the call stops for good when a configured maximum bound is
reached, else picks a fresh sequence (sequential counter, or Zipf draw
with duplicate rejection guarded by the catalog-exhaustion assertion)
and bumps `m_seq`; otherwise the popped sequence is resent.  Either
send records itself (`WillSendOutInterest`) and reschedules
(`ScheduleNextPacket`).  Name construction, nonce and the packet
encoding are not modelled. -/
def sendPacket (draws : List ℚ) (now : ℚ) (st : ConsumerState) :
    SendResult :=
  if st.m_active = false then SendResult.ok st none
  else
    let p : Nat × ConsumerState :=
      match st.m_retxSeqs with
      | [] => (uint32Max, st)
      | s :: rest => (s, { st with m_retxSeqs := rest })
    if p.1 = uint32Max then
      if p.2.m_seqMax ≠ uint32Max ∧ p.2.m_seqMax ≤ p.2.m_seq then
        SendResult.ok p.2 none
      else
        match p.2.m_requestMode with
        | RequestMode.sequential =>
            let s := p.2.m_seq
            let st1 := { p.2 with m_seq := (p.2.m_seq + 1) % 2 ^ 32 }
            SendResult.ok (scheduleNextPacket (willSendOutInterest now s st1)).1
              (some s)
        | RequestMode.zipfMandelbrot =>
            if p.2.m_N ≤ p.2.m_seqTimeouts.length then
              SendResult.assertExhausted
            else
              match zipfPick p.2.m_Pcum p.2.m_N p.2.m_seqTimeouts draws with
              | none => SendResult.drawsExhausted
              | some s =>
                  let st1 := { p.2 with m_seq := (p.2.m_seq + 1) % 2 ^ 32 }
                  SendResult.ok
                    (scheduleNextPacket (willSendOutInterest now s st1)).1
                    (some s)
    else
      SendResult.ok (scheduleNextPacket (willSendOutInterest now p.1 p.2)).1
        (some p.1)

/-- `Consumer::OnNack` (via `ConsumerRate::OnNack`, whose frequency
adjustment is a log statement): if active, enqueue the sequence into
`m_retxSeqs`, erase it from `m_seqTimeouts`, and call
`ScheduleNextPacket`.  The second component is the delay of the newly
scheduled send event, if one was scheduled. -/
def onNack (s : Nat) (st : ConsumerState) : ConsumerState × Option ℚ :=
  if st.m_active = false then (st, none)
  else
    scheduleNextPacket
      { st with
        m_retxSeqs := setInsert st.m_retxSeqs s
        m_seqTimeouts := eraseSeq st.m_seqTimeouts s }

/-- Iterated issuance ticks: each tick is the send event firing
(`m_sendEvent` no longer running during the callback) followed by
`Consumer::SendPacket`.  Returns the issued sequences in order and the
final state; a fatal assertion or an exhausted draw stream ends the
run. -/
def runTicks (draws : List ℚ) (now : ℚ) :
    Nat → ConsumerState → List Nat × ConsumerState
  | 0, st => ([], st)
  | k + 1, st =>
      match sendPacket draws now { st with m_sendEventRunning := false } with
      | SendResult.ok st2 (some s) =>
          let r := runTicks draws now k st2
          (s :: r.1, r.2)
      | SendResult.ok st2 none => runTicks draws now k st2
      | _ => ([], st)

/-! ## Zipf-Mandelbrot popularity table -/

/-- The weight `1.0 / std::pow (i + m_q, m_s)` of rank `i`.  The math
library power on doubles is modelled by the abstract function `pw`
(exact in rationals). -/
def zipfWeight (pw : ℚ → ℚ → ℚ) (q s : ℚ) (i : Nat) : ℚ :=
  1 / pw ((i : ℚ) + q) s

/-- The unnormalized cumulative sums of the first construction loop of
`Consumer::SetNumberOfContents`: `m_Pcum[0] = 0`,
`m_Pcum[i] = m_Pcum[i-1] + 1 / pow (i + q, s)`. -/
def pcumRaw (pw : ℚ → ℚ → ℚ) (q s : ℚ) : Nat → ℚ
  | 0 => 0
  | i + 1 => pcumRaw pw q s i + zipfWeight pw q s (i + 1)

/-- The table `m_Pcum` after both loops of
`Consumer::SetNumberOfContents`: entries 1..n divided in place by
`m_Pcum[m_N]` (entry `n` itself is rewritten only at the final
iteration, so every division uses the original last cumulative sum);
entry 0 is left untouched. -/
def buildPcum (pw : ℚ → ℚ → ℚ) (q s : ℚ) (n : Nat) : List ℚ :=
  (List.range (n + 1)).map fun i =>
    if i = 0 then pcumRaw pw q s 0
    else pcumRaw pw q s i / pcumRaw pw q s n

/-- `Consumer::SetNumberOfContents`: in Zipf-Mandelbrot mode set `m_N`
and rebuild `m_Pcum`; in any other request mode return without touching
anything. -/
def setNumberOfContents (pw : ℚ → ℚ → ℚ) (st : ConsumerState) (n : Nat) :
    ConsumerState :=
  if st.m_requestMode ≠ RequestMode.zipfMandelbrot then st
  else { st with m_N := n, m_Pcum := buildPcum pw st.m_q st.m_s n }

/-- `Consumer::SetQ`: in Zipf-Mandelbrot mode set `m_q` and rebuild via
`SetNumberOfContents (m_N)`. -/
def setQ (pw : ℚ → ℚ → ℚ) (st : ConsumerState) (q : ℚ) : ConsumerState :=
  if st.m_requestMode ≠ RequestMode.zipfMandelbrot then st
  else setNumberOfContents pw { st with m_q := q } st.m_N

/-- `Consumer::SetS`: in Zipf-Mandelbrot mode set `m_s` and rebuild via
`SetNumberOfContents (m_N)`. -/
def setS (pw : ℚ → ℚ → ℚ) (st : ConsumerState) (s : ℚ) : ConsumerState :=
  if st.m_requestMode ≠ RequestMode.zipfMandelbrot then st
  else setNumberOfContents pw { st with m_s := s } st.m_N

/-! ## Concrete sample states used by witnesses and counterexamples -/

/-- A consumer switched to Zipf-Mandelbrot request mode. -/
def zipfInit : ConsumerState :=
  { initConsumer with m_requestMode := RequestMode.zipfMandelbrot }

/-- An active consumer past its first scheduling, with no send event
pending. -/
def nackStateA : ConsumerState :=
  { initConsumer with m_firstTime := false }

/-- An active consumer past its first scheduling, with a send event
already pending. -/
def nackStateB : ConsumerState :=
  { initConsumer with m_firstTime := false, m_sendEventRunning := true }

/-- A sequential-mode consumer configured with `MaxSeq = 5`, starting at
sequence 0. -/
def seqRunState : ConsumerState :=
  { initConsumer with m_seqMax := 5 }

/-- The `maxSequence = 5` sequential consumer with the sentinel value
4294967295 pending retransmission. -/
def retxSentinelState : ConsumerState :=
  { seqRunState with m_retxSeqs := [uint32Max] }

/-- A PIT entry with three outgoing faces, none in vain, and two
incoming faces. -/
def pitThree : PitEntry :=
  { outgoing := [⟨1, false⟩, ⟨2, false⟩, ⟨3, false⟩], incoming := [7, 8] }

/-- A Zipf consumer with catalog size 3, no maximum-sequence bound, and
the whole catalog pending (exhausted). -/
def zipfEx : ConsumerState :=
  { zipfInit with
    m_seqMax := uint32Max
    m_N := 3
    m_Pcum := [0, 2, 5, 9]
    m_seqTimeouts := [⟨1, 0⟩, ⟨2, 0⟩, ⟨3, 1⟩] }

/-- A Zipf consumer with catalog size 3, no maximum-sequence bound, and
one item pending. -/
def zipfOk : ConsumerState :=
  { zipfInit with
    m_seqMax := uint32Max
    m_N := 3
    m_Pcum := [0, 2, 5, 9]
    m_seqTimeouts := [⟨1, 0⟩] }

/-! ## Helper lemmas -/

theorem setWaitingInVain_incoming (e : PitEntry) (f : Option FaceId) :
    (e.setWaitingInVain f).incoming = e.incoming := by
  cases f <;> rfl

theorem didReceiveValidNack_cwndDecreased (inFace : Option FaceId)
    (code : NackCode) (header : Interest) (pkt : Packet) (pit : PitEntry) :
    (didReceiveValidNack inFace code header pkt pit).cwndDecreased =
      match inFace with
      | some f =>
          if code = NackCode.nackCongestion ∨ code = NackCode.nackGiveupPit
          then [f] else []
      | none => [] := by
  unfold didReceiveValidNack
  dsimp only
  split
  · split <;> split <;> rfl
  · split <;> rfl

theorem didReceiveValidNack_pit (inFace : Option FaceId) (code : NackCode)
    (header : Interest) (pkt : Packet) (pit : PitEntry)
    (hc : code = NackCode.nackLoop ∨ code = NackCode.nackCongestion ∨
          code = NackCode.nackGiveupPit) :
    (didReceiveValidNack inFace code header pkt pit).pit =
      ((if code = NackCode.nackGiveupPit then pit.removeIncoming inFace
        else pit).setWaitingInVain inFace) := by
  unfold didReceiveValidNack
  dsimp only
  rw [if_pos hc]
  split <;> split <;> rfl

/-! ## Claim C9 -/

/-- Claim C9: a negative-ack with reason give-up removes the originating
face from the pending request's incoming-face set regardless of in-vain
status, whereas loop and congestion never remove the incoming face; the
originating face's congestion window is decreased exactly for reasons
congestion and give-up, not for loop. -/
theorem claim_C9 (f : FaceId) (header : Interest) (pkt : Packet)
    (pit : PitEntry) :
    ((didReceiveValidNack (some f) NackCode.nackGiveupPit header pkt
        pit).pit.incoming = pit.incoming.filter (· ≠ f))
    ∧ ((didReceiveValidNack (some f) NackCode.nackLoop header pkt
        pit).pit.incoming = pit.incoming)
    ∧ ((didReceiveValidNack (some f) NackCode.nackCongestion header pkt
        pit).pit.incoming = pit.incoming)
    ∧ ((didReceiveValidNack (some f) NackCode.nackGiveupPit header pkt
        pit).cwndDecreased = [f])
    ∧ ((didReceiveValidNack (some f) NackCode.nackCongestion header pkt
        pit).cwndDecreased = [f])
    ∧ ((didReceiveValidNack (some f) NackCode.nackLoop header pkt
        pit).cwndDecreased = []) := by
  refine ⟨?_, ?_, ?_, ?_, ?_, ?_⟩
  · rw [didReceiveValidNack_pit _ _ _ _ _ (by simp), setWaitingInVain_incoming]
    simp [PitEntry.removeIncoming]
  · rw [didReceiveValidNack_pit _ _ _ _ _ (by simp), setWaitingInVain_incoming]
    simp
  · rw [didReceiveValidNack_pit _ _ _ _ _ (by simp), setWaitingInVain_incoming]
    simp
  · rw [didReceiveValidNack_cwndDecreased]; simp
  · rw [didReceiveValidNack_cwndDecreased]; simp
  · rw [didReceiveValidNack_cwndDecreased]; simp

/-! ## Claim C2 -/

/-- Claim C2: for every valid negative-ack with reason loop, congestion
or give-up, the forwarder marks the originating face as waiting in vain;
while not every outgoing face is in vain it only emits the
nack-suppressed observable (the forwarding-exhaustion handler is not
invoked, and the PIT entry carries no change beyond the reason-specific
bookkeeping plus the in-vain mark); once every outgoing face is in vain
it invokes the forwarding-exhaustion handler with a normalized
non-negative-ack copy of the request, carrying the hop-count tag of the
received packet when present. -/
theorem claim_C2 (f : FaceId) (code : NackCode) (header : Interest)
    (pkt : Packet) (pit : PitEntry)
    (hc : code = NackCode.nackLoop ∨ code = NackCode.nackCongestion ∨
          code = NackCode.nackGiveupPit) :
    ((didReceiveValidNack (some f) code header pkt pit).pit =
      ((if code = NackCode.nackGiveupPit then pit.removeIncoming (some f)
        else pit).setWaitingInVain (some f)))
    ∧ (((if code = NackCode.nackGiveupPit then pit.removeIncoming (some f)
          else pit).setWaitingInVain (some f)).areAllOutgoingInVain = false →
        (didReceiveValidNack (some f) code header pkt pit).dropNack = true
        ∧ (didReceiveValidNack (some f) code header pkt pit).exhausted = none)
    ∧ (((if code = NackCode.nackGiveupPit then pit.removeIncoming (some f)
          else pit).setWaitingInVain (some f)).areAllOutgoingInVain = true →
        (didReceiveValidNack (some f) code header pkt pit).dropNack = false
        ∧ (didReceiveValidNack (some f) code header pkt pit).exhausted =
            some (some f, { header with nack := NackCode.normalInterest },
              pkt.hopCountTag)) := by
  refine ⟨didReceiveValidNack_pit _ _ _ _ _ hc, ?_, ?_⟩
  · intro hall
    unfold didReceiveValidNack
    dsimp only
    rw [if_pos hc, if_neg (by rw [hall]; exact Bool.false_ne_true)]
    exact ⟨rfl, rfl⟩
  · intro hall
    unfold didReceiveValidNack
    dsimp only
    rw [if_pos hc, if_pos hall]
    exact ⟨rfl, rfl⟩

/-- Witness for claim C2 at a concrete input: reason loop on face 1 of a
three-outgoing-face PIT entry (so not all outgoing are in vain: the nack
is suppressed and the exhaustion handler is not invoked), and reason
loop on a PIT entry whose single outgoing face becomes in vain (so the
exhaustion handler receives the normalized interest with the packet's
hop-count tag). -/
theorem claim_C2_witness :
    ((didReceiveValidNack (some 1) NackCode.nackLoop ⟨5, NackCode.nackLoop⟩
        ⟨some 4⟩ pitThree).dropNack = true
      ∧ (didReceiveValidNack (some 1) NackCode.nackLoop ⟨5, NackCode.nackLoop⟩
        ⟨some 4⟩ pitThree).exhausted = none)
    ∧ ((didReceiveValidNack (some 1) NackCode.nackLoop ⟨5, NackCode.nackLoop⟩
        ⟨some 4⟩ ⟨[⟨1, false⟩], [7]⟩).dropNack = false
      ∧ (didReceiveValidNack (some 1) NackCode.nackLoop ⟨5, NackCode.nackLoop⟩
        ⟨some 4⟩ ⟨[⟨1, false⟩], [7]⟩).exhausted =
          some (some 1, ⟨5, NackCode.normalInterest⟩, some 4)) := by
  constructor
  · exact (claim_C2 1 NackCode.nackLoop ⟨5, NackCode.nackLoop⟩ ⟨some 4⟩
      pitThree (Or.inl rfl)).2.1 (by decide)
  · exact (claim_C2 1 NackCode.nackLoop ⟨5, NackCode.nackLoop⟩ ⟨some 4⟩
      ⟨[⟨1, false⟩], [7]⟩ (Or.inl rfl)).2.2 (by decide)

/-! ## List-container lemmas -/

theorem mem_insertByTime_iff (l : List SeqTimeout) (e x : SeqTimeout) :
    x ∈ insertByTime l e ↔ x = e ∨ x ∈ l := by
  induction l with
  | nil => simp [insertByTime]
  | cons a as ih =>
      unfold insertByTime
      split
      · rw [List.mem_cons, List.mem_cons, ih]
        tauto
      · rw [List.mem_cons, List.mem_cons]

theorem mem_eraseSeq (l : List SeqTimeout) (s : Nat) (x : SeqTimeout)
    (hx : x ∈ eraseSeq l s) : x.seq ≠ s := by
  have := List.mem_filter.mp hx
  simpa using this.2

theorem eraseSeq_any_false (l : List SeqTimeout) (s : Nat) :
    (eraseSeq l s).any (·.seq = s) = false := by
  induction l with
  | nil => rfl
  | cons a as ih =>
      unfold eraseSeq at ih ⊢
      by_cases h : a.seq = s
      · simp [List.filter_cons, h, ih]
      · simp [List.filter_cons, h, ih]

theorem mapGet_mapBump (l : List (Nat × Nat)) (s : Nat) :
    mapGet (mapBump l s) s = mapGet l s + 1 := by
  induction l with
  | nil => simp [mapGet, mapBump]
  | cons p ps ih =>
      by_cases h : p.1 = s
      · simp [mapGet, mapBump, h]
      · simp only [mapBump, if_neg h]
        simp only [mapGet] at ih ⊢
        simpa [List.find?_cons, h] using ih

theorem mem_setInsert_self (l : List Nat) (s : Nat) : s ∈ setInsert l s := by
  induction l with
  | nil => simp [setInsert]
  | cons x xs ih =>
      unfold setInsert
      by_cases h1 : s < x
      · simp [h1]
      · by_cases h2 : s = x
        · simp [h1, h2]
        · simp [h1, h2, ih]

theorem scheduleNextPacket_fields (st : ConsumerState) :
    (scheduleNextPacket st).1.m_retxSeqs = st.m_retxSeqs
    ∧ (scheduleNextPacket st).1.m_seqTimeouts = st.m_seqTimeouts
    ∧ (scheduleNextPacket st).1.m_seqRetxCounts = st.m_seqRetxCounts
    ∧ (scheduleNextPacket st).1.m_seqFullDelay = st.m_seqFullDelay
    ∧ (scheduleNextPacket st).1.m_seqLastDelay = st.m_seqLastDelay
    ∧ (scheduleNextPacket st).2 =
        (if st.m_firstTime then some 0
         else if st.m_sendEventRunning = false then some (1 / st.m_frequency)
         else none) := by
  unfold scheduleNextPacket
  split_ifs <;> simp

/-! ## Claim C6 -/

/-- Claim C6 counterexample: on a first send (the retransmit-count entry
for sequence 7 does not exist, its defaulted value reads 0), recording
the send leaves the count at 1, not 0 — `m_seqRetxCounts[seq]++` runs on
every send, not only when the entry already existed. -/
theorem claim_C6_counterexample :
    mapGet initConsumer.m_seqRetxCounts 7 = 0
    ∧ mapGet (willSendOutInterest 0 7 initConsumer).m_seqRetxCounts 7 = 1 := by
  constructor <;> decide

/-- Claim C6 (amended): recording a send for a sequence inserts or
refreshes the last-send entry to the current time, inserts a pending
ledger entry when none exists (leaving an existing one untouched), and
increments `retransmitCount` on every send, first sends included — so
the count equals the total number of transmissions, 1 after a first
send, and the number of resends is the count minus 1. -/
theorem claim_C6_amended (now : ℚ) (s : Nat) (st : ConsumerState) :
    (SeqTimeout.mk s now ∈ (willSendOutInterest now s st).m_seqLastDelay
      ∧ ∀ e ∈ (willSendOutInterest now s st).m_seqLastDelay,
          e.seq = s → e.time = now)
    ∧ (st.m_seqTimeouts.any (·.seq = s) = false →
        SeqTimeout.mk s now ∈ (willSendOutInterest now s st).m_seqTimeouts)
    ∧ (st.m_seqTimeouts.any (·.seq = s) = true →
        (willSendOutInterest now s st).m_seqTimeouts = st.m_seqTimeouts)
    ∧ mapGet (willSendOutInterest now s st).m_seqRetxCounts s =
        mapGet st.m_seqRetxCounts s + 1 := by
  have hlast : (willSendOutInterest now s st).m_seqLastDelay =
      insertByTime (eraseSeq st.m_seqLastDelay s) ⟨s, now⟩ := by
    show insertSeqTimeout (eraseSeq st.m_seqLastDelay s) ⟨s, now⟩ = _
    unfold insertSeqTimeout
    rw [if_neg]
    rw [eraseSeq_any_false]
    exact Bool.false_ne_true
  refine ⟨⟨?_, ?_⟩, ?_, ?_, ?_⟩
  · rw [hlast, mem_insertByTime_iff]
    exact Or.inl rfl
  · intro e he heq
    rw [hlast, mem_insertByTime_iff] at he
    rcases he with rfl | he
    · rfl
    · exact absurd heq (mem_eraseSeq _ _ _ he)
  · intro h
    show SeqTimeout.mk s now ∈ insertSeqTimeout st.m_seqTimeouts ⟨s, now⟩
    unfold insertSeqTimeout
    rw [if_neg]
    · rw [mem_insertByTime_iff]
      exact Or.inl rfl
    · rw [h]
      exact Bool.false_ne_true
  · intro h
    show insertSeqTimeout st.m_seqTimeouts ⟨s, now⟩ = st.m_seqTimeouts
    unfold insertSeqTimeout
    rw [if_pos h]
  · exact mapGet_mapBump _ _

/-- Witness for the amended claim C6 at a concrete input: a first send
of sequence 7 at time 2 on a fresh consumer. -/
theorem claim_C6_amended_witness :
    SeqTimeout.mk 7 2 ∈ (willSendOutInterest 2 7 initConsumer).m_seqLastDelay
    ∧ (initConsumer.m_seqTimeouts.any (·.seq = 7) = false)
    ∧ SeqTimeout.mk 7 2 ∈ (willSendOutInterest 2 7 initConsumer).m_seqTimeouts
    ∧ mapGet (willSendOutInterest 2 7 initConsumer).m_seqRetxCounts 7 =
        mapGet initConsumer.m_seqRetxCounts 7 + 1 :=
  ⟨(claim_C6_amended 2 7 initConsumer).1.1, by decide,
   (claim_C6_amended 2 7 initConsumer).2.1 (by decide),
   (claim_C6_amended 2 7 initConsumer).2.2.2⟩

/-! ## Claim C7 -/

/-- Claim C7 counterexample: on a negative-ack for sequence 5, an active
consumer past its first scheduling does not trigger an immediate
issuance — with no send event pending it schedules the next send one
full pacing interval (1/frequency = 1/10 second) away, not at delay 0,
and with a send event already pending it schedules nothing at all and
waits for that paced slot. -/
theorem claim_C7_counterexample :
    (onNack 5 nackStateA).2 = some (1 / 10)
    ∧ (onNack 5 nackStateA).2 ≠ some 0
    ∧ (onNack 5 nackStateB).2 = none := by
  have h2 : (onNack 5 nackStateA).2 = some (1 / 10) := by
    simp [onNack, nackStateA, nackStateB, initConsumer, scheduleNextPacket]
  refine ⟨h2, ?_, ?_⟩
  · rw [h2]
    intro h
    have := Option.some.inj h
    norm_num at this
  · simp [onNack, nackStateA, nackStateB, initConsumer, scheduleNextPacket]

/-- Claim C7 (amended): on every negative-ack received by an active
consumer session, the sequence is enqueued into the retransmit queue,
removed from the timeout ledger while retransmit accounting and the
first-send bookkeeping are kept, and the next issuance is (re)scheduled
only if no send event is pending — after one pacing interval
1/frequency, immediately only for the session's very first scheduling;
with a send event already pending it simply waits for that paced
slot. -/
theorem claim_C7_amended (s : Nat) (st : ConsumerState)
    (h : st.m_active = true) :
    (onNack s st).1.m_retxSeqs = setInsert st.m_retxSeqs s
    ∧ s ∈ (onNack s st).1.m_retxSeqs
    ∧ (onNack s st).1.m_seqTimeouts = eraseSeq st.m_seqTimeouts s
    ∧ (onNack s st).1.m_seqRetxCounts = st.m_seqRetxCounts
    ∧ (onNack s st).1.m_seqFullDelay = st.m_seqFullDelay
    ∧ (onNack s st).2 =
        (if st.m_firstTime then some 0
         else if st.m_sendEventRunning = false then some (1 / st.m_frequency)
         else none) := by
  have hact : ¬ st.m_active = false := by
    rw [h]; simp
  unfold onNack
  rw [if_neg hact]
  obtain ⟨h1, h2, h3, h4, h5, h6⟩ := scheduleNextPacket_fields
    { st with
      m_retxSeqs := setInsert st.m_retxSeqs s
      m_seqTimeouts := eraseSeq st.m_seqTimeouts s }
  refine ⟨h1, ?_, h2, h3, h4, h6⟩
  rw [h1]
  exact mem_setInsert_self _ _

/-- Witness for the amended claim C7 at a concrete input: a nack for
sequence 5 on an active consumer with no pending send event. -/
theorem claim_C7_amended_witness :
    nackStateA.m_active = true
    ∧ 5 ∈ (onNack 5 nackStateA).1.m_retxSeqs
    ∧ (onNack 5 nackStateA).1.m_seqRetxCounts = nackStateA.m_seqRetxCounts :=
  ⟨by decide, (claim_C7_amended 5 nackStateA (by decide)).2.1,
   (claim_C7_amended 5 nackStateA (by decide)).2.2.2.1⟩

/-! ## Claim C5 -/

/-- Claim C5: every mutation of the catalog size, the Zipf exponent or
the Mandelbrot shift through the setters rebuilds the cumulative table
for the updated parameters (in any other request mode the setters mutate
nothing at all), and rebuilding is idempotent — each setter applied
twice with the same value yields the state of a single application,
identical cumulative table included. -/
theorem claim_C5 (pw : ℚ → ℚ → ℚ) (st : ConsumerState) (n : Nat) (q2 s2 : ℚ)
    (h : st.m_requestMode = RequestMode.zipfMandelbrot) :
    (setNumberOfContents pw (setNumberOfContents pw st n) n =
        setNumberOfContents pw st n)
    ∧ ((setNumberOfContents pw st n).m_Pcum = buildPcum pw st.m_q st.m_s n
        ∧ (setNumberOfContents pw st n).m_N = n)
    ∧ ((setQ pw st q2).m_Pcum = buildPcum pw q2 st.m_s st.m_N
        ∧ (setQ pw st q2).m_q = q2)
    ∧ ((setS pw st s2).m_Pcum = buildPcum pw st.m_q s2 st.m_N
        ∧ (setS pw st s2).m_s = s2)
    ∧ (setQ pw (setQ pw st q2) q2 = setQ pw st q2)
    ∧ (setS pw (setS pw st s2) s2 = setS pw st s2) := by
  simp [setNumberOfContents, setQ, setS, h]

/-- Witness for claim C5 at a concrete input: the Zipf-mode consumer,
an abstract power function, catalog size 2, shift 1, exponent 2. -/
theorem claim_C5_witness :
    zipfInit.m_requestMode = RequestMode.zipfMandelbrot
    ∧ (setNumberOfContents (fun a b => a + b)
        (setNumberOfContents (fun a b => a + b) zipfInit 2) 2 =
          setNumberOfContents (fun a b => a + b) zipfInit 2)
    ∧ (setQ (fun a b => a + b) zipfInit 1).m_q = 1
    ∧ (setS (fun a b => a + b) zipfInit 2).m_s = 2 :=
  ⟨rfl,
   (claim_C5 (fun a b => a + b) zipfInit 2 1 2 rfl).1,
   (claim_C5 (fun a b => a + b) zipfInit 2 1 2 rfl).2.2.1.2,
   (claim_C5 (fun a b => a + b) zipfInit 2 1 2 rfl).2.2.2.1.2⟩

/-! ## Claim C3 -/

/-- Claim C3: on a ledger whose entries are in ascending order of their
record time (the `i_timestamp` index invariant), the timeout check
removes and signals exactly the entries with `lastSentAt + rto <= now`,
in oldest-first order, and keeps exactly the unexpired ones — the early
exit at the first unexpired entry loses nothing. -/
theorem claim_C3 (l : List SeqTimeout) (now rto : ℚ)
    (hs : List.Chain' (fun a b => a.time ≤ b.time) l) :
    (checkTimeoutsLoop now rto l).1 =
      (l.filter (fun e => decide (e.time + rto ≤ now))).map (·.seq)
    ∧ (checkTimeoutsLoop now rto l).2 =
      l.filter (fun e => decide (now < e.time + rto)) := by
  haveI : IsTrans SeqTimeout (fun a b => a.time ≤ b.time) :=
    ⟨fun _ _ _ hab hbc => le_trans hab hbc⟩
  induction l with
  | nil => exact ⟨rfl, rfl⟩
  | cons e rest ih =>
      have hrest : List.Chain' (fun a b : SeqTimeout => a.time ≤ b.time) rest :=
        hs.tail
      by_cases h : e.time + rto ≤ now
      · have hih := ih hrest
        have hnlt : ¬ (now < e.time + rto) := not_lt.mpr h
        unfold checkTimeoutsLoop
        rw [if_pos h]
        constructor
        · simp [List.filter_cons, h, hih.1]
        · simp [List.filter_cons, hnlt, hih.2]
      · have hall : ∀ x ∈ rest, ¬ (x.time + rto ≤ now) := by
          intro x hx hc
          have hpair := List.chain'_iff_pairwise.mp hs
          have hex : e.time ≤ x.time := (List.pairwise_cons.mp hpair).1 x hx
          exact h (le_trans (by linarith) hc)
        have hlt : now < e.time + rto := not_le.mp h
        unfold checkTimeoutsLoop
        rw [if_neg h]
        constructor
        · have hnil : (rest.filter (fun e => decide (e.time + rto ≤ now))) =
              [] :=
            List.filter_eq_nil_iff.mpr (by
              intro x hx
              simpa using hall x hx)
          simp [List.filter_cons, h, hnil]
        · have hself : (rest.filter (fun e => decide (now < e.time + rto))) =
              rest :=
            List.filter_eq_self.mpr (by
              intro x hx
              simpa using not_le.mp (hall x hx))
          simp [List.filter_cons, hlt, hself]

/-- Witness for claim C3 at the concrete input of the claim: entries
sent at t = 0, 1, 2 with rto = 3/2 checked at now = 3 expire exactly the
entries sent at 0 and 1 and leave the one sent at 2 pending. -/
theorem claim_C3_witness :
    List.Chain' (fun a b : SeqTimeout => a.time ≤ b.time)
      [⟨10, 0⟩, ⟨11, 1⟩, ⟨12, 2⟩]
    ∧ (checkTimeoutsLoop 3 (3 / 2) [⟨10, 0⟩, ⟨11, 1⟩, ⟨12, 2⟩]).1 = [10, 11]
    ∧ (checkTimeoutsLoop 3 (3 / 2) [⟨10, 0⟩, ⟨11, 1⟩, ⟨12, 2⟩]).2 =
        [⟨12, 2⟩] := by
  have hs : List.Chain' (fun a b : SeqTimeout => a.time ≤ b.time)
      [⟨10, 0⟩, ⟨11, 1⟩, ⟨12, 2⟩] := by
    refine List.Chain'.cons ?_ (List.Chain'.cons ?_ ?_) <;> norm_num
  have h01 : ((0 : ℚ) + 3 / 2 ≤ 3) := by norm_num
  have h11 : ((1 : ℚ) + 3 / 2 ≤ 3) := by norm_num
  have h21 : ¬ ((2 : ℚ) + 3 / 2 ≤ 3) := by norm_num
  have h02 : ¬ ((3 : ℚ) < 0 + 3 / 2) := by norm_num
  have h12 : ¬ ((3 : ℚ) < 1 + 3 / 2) := by norm_num
  have h22 : ((3 : ℚ) < 2 + 3 / 2) := by norm_num
  refine ⟨hs, ?_, ?_⟩
  · rw [(claim_C3 _ 3 (3 / 2) hs).1]
    simp [List.filter_cons, h01, h11, h21]
  · rw [(claim_C3 _ 3 (3 / 2) hs).2]
    simp [List.filter_cons, h02, h12, h22]

/-! ## Claim C1 -/

theorem sumCwnd_nil : sumCwnd [] = 0 := rfl

theorem sumCwnd_cons (m : FaceMetric) (fs : List FaceMetric) :
    sumCwnd (m :: fs) = m.cwnd + sumCwnd fs := by
  simp [sumCwnd]

theorem propagateLoop_sel (trySend : FaceId → Bool) (total : Nat) (r : ℚ) :
    ∀ (fs : List FaceMetric) (acc : Nat),
      r ≤ ((acc + sumCwnd fs : ℕ) : ℚ) / (total : ℚ) →
      ¬ (r ≤ (acc : ℚ) / (total : ℚ)) →
      ∃ k, ∃ hk : k < fs.length,
        (∀ j, j < k →
          ¬ (r ≤ ((acc + sumCwnd (fs.take (j + 1)) : ℕ) : ℚ) / (total : ℚ)))
        ∧ (r ≤ ((acc + sumCwnd (fs.take (k + 1)) : ℕ) : ℚ) / (total : ℚ))
        ∧ propagateLoop trySend total r fs ((acc : ℚ) / (total : ℚ)) =
            ⟨trySend (fs.get ⟨k, hk⟩).face, [(fs.get ⟨k, hk⟩).face],
             if trySend (fs.get ⟨k, hk⟩).face then []
             else [(fs.get ⟨k, hk⟩).face]⟩ := by
  intro fs
  induction fs with
  | nil =>
      intro acc hfin hne
      rw [sumCwnd_nil, Nat.add_zero] at hfin
      exact absurd hfin hne
  | cons m fs ih =>
      intro acc hfin hne
      have hcast : (acc : ℚ) / (total : ℚ) + (m.cwnd : ℚ) / (total : ℚ) =
          ((acc + m.cwnd : ℕ) : ℚ) / (total : ℚ) := by
        rw [div_add_div_same, Nat.cast_add]
      by_cases hsel : r ≤ ((acc + m.cwnd : ℕ) : ℚ) / (total : ℚ)
      · refine ⟨0, Nat.succ_pos _, ?_, ?_, ?_⟩
        · intro j hj
          exact absurd hj (Nat.not_lt_zero j)
        · simpa [sumCwnd_cons, sumCwnd_nil] using hsel
        · show propagateLoop trySend total r (m :: fs) ((acc : ℚ) / (total : ℚ)) = _
          unfold propagateLoop
          dsimp only
          rw [hcast, if_pos hsel]
          rfl
      · have hfin2 : r ≤ (((acc + m.cwnd) + sumCwnd fs : ℕ) : ℚ) / (total : ℚ) := by
          rw [Nat.add_assoc, ← sumCwnd_cons]
          exact hfin
        obtain ⟨k, hk, hbefore, hsel2, hloop⟩ := ih (acc + m.cwnd) hfin2 hsel
        refine ⟨k + 1, Nat.succ_lt_succ hk, ?_, ?_, ?_⟩
        · intro j hj
          cases j with
          | zero =>
              simpa [sumCwnd_cons, sumCwnd_nil] using hsel
          | succ j =>
              rw [List.take_succ_cons, sumCwnd_cons, ← Nat.add_assoc]
              exact hbefore j (Nat.lt_of_succ_lt_succ hj)
        · rw [List.take_succ_cons, sumCwnd_cons, ← Nat.add_assoc]
          exact hsel2
        · show propagateLoop trySend total r (m :: fs) ((acc : ℚ) / (total : ℚ)) = _
          unfold propagateLoop
          dsimp only
          rw [hcast, if_neg hsel]
          exact hloop

/-- Claim C1: the forwarder selects the unique first face (in the fixed
enumeration order) whose accumulated probability `prefix-cwnd / total`
reaches the uniform draw `r`; it attempts the send on that face only,
returns that send's outcome, and when the send fails it decreases
exactly that face's congestion window and reports failure without trying
any further face in the same call. -/
theorem claim_C1 (trySend : FaceId → Bool) (r : ℚ) (faces : List FaceMetric)
    (hr0 : 0 ≤ r) (hr1 : r < 1)
    (hof : sumCwnd faces < 2 ^ 32) (hpos : 0 < sumCwnd faces) :
    ∃ k, ∃ hk : k < faces.length,
      (∀ j, j < k →
        ¬ (r ≤ (prefixCwnd faces (j + 1) : ℚ) / (totalCwnd faces : ℚ)))
      ∧ (r ≤ (prefixCwnd faces (k + 1) : ℚ) / (totalCwnd faces : ℚ))
      ∧ (doPropagateInterest trySend r faces).attempted =
          [(faces.get ⟨k, hk⟩).face]
      ∧ (doPropagateInterest trySend r faces).success =
          trySend (faces.get ⟨k, hk⟩).face
      ∧ (trySend (faces.get ⟨k, hk⟩).face = false →
          (doPropagateInterest trySend r faces).success = false
          ∧ (doPropagateInterest trySend r faces).decreased =
              [(faces.get ⟨k, hk⟩).face])
      ∧ (trySend (faces.get ⟨k, hk⟩).face = true →
          (doPropagateInterest trySend r faces).decreased = []) := by
  have htot : totalCwnd faces = sumCwnd faces := Nat.mod_eq_of_lt hof
  have hcast0 : ((0 : ℕ) : ℚ) / (totalCwnd faces : ℚ) = 0 := by
    simp
  have hprop : doPropagateInterest trySend r faces =
      propagateLoop trySend (totalCwnd faces) r faces
        (((0 : ℕ) : ℚ) / (totalCwnd faces : ℚ)) := by
    rw [hcast0]
    rfl
  by_cases hr : 0 < r
  · have hnz : ((sumCwnd faces : ℕ) : ℚ) ≠ 0 := by
      exact_mod_cast Nat.pos_iff_ne_zero.mp hpos
    have hfin : r ≤ ((0 + sumCwnd faces : ℕ) : ℚ) / (totalCwnd faces : ℚ) := by
      rw [Nat.zero_add, htot, div_self hnz]
      exact le_of_lt hr1
    have hne : ¬ (r ≤ ((0 : ℕ) : ℚ) / (totalCwnd faces : ℚ)) := by
      rw [hcast0]
      exact not_le.mpr hr
    obtain ⟨k, hk, hbefore, hsel, hloop⟩ :=
      propagateLoop_sel trySend (totalCwnd faces) r faces 0 hfin hne
    refine ⟨k, hk, ?_, ?_, ?_, ?_, ?_, ?_⟩
    · intro j hj
      have := hbefore j hj
      rwa [Nat.zero_add] at this
    · have := hsel
      rwa [Nat.zero_add] at this
    · rw [hprop, hloop]
    · rw [hprop, hloop]
    · intro hf
      rw [hprop, hloop]
      simp [hf]
      exact hf
    · intro ht
      rw [hprop, hloop]
      simp [ht]
      exact ht
  · have hr02 : r = 0 := le_antisymm (not_lt.mp hr) hr0
    cases faces with
    | nil =>
        rw [sumCwnd_nil] at hpos
        exact absurd hpos (lt_irrefl 0)
    | cons m fs =>
        have hsel : r ≤ (prefixCwnd (m :: fs) 1 : ℚ) / (totalCwnd (m :: fs) : ℚ) := by
          rw [hr02]
          exact div_nonneg (Nat.cast_nonneg _) (Nat.cast_nonneg _)
        have hif : r ≤ 0 + ((m.cwnd : ℚ)) / (totalCwnd (m :: fs) : ℚ) := by
          rw [hr02, zero_add]
          exact div_nonneg (Nat.cast_nonneg _) (Nat.cast_nonneg _)
        have hloop : doPropagateInterest trySend r (m :: fs) =
            ⟨trySend m.face, [m.face],
             if trySend m.face then [] else [m.face]⟩ := by
          show propagateLoop trySend (totalCwnd (m :: fs)) r (m :: fs) 0 = _
          unfold propagateLoop
          dsimp only
          rw [if_pos hif]
        refine ⟨0, Nat.succ_pos _, ?_, hsel, ?_, ?_, ?_, ?_⟩
        · intro j hj
          exact absurd hj (Nat.not_lt_zero j)
        · simp [hloop]
        · simp [hloop]
        · intro hf
          simp [hloop, hf]
          exact hf
        · intro ht
          simp [hloop, ht]
          exact ht

/-- Witness for claim C1 at a concrete input: two faces with windows 3
and 1, draw 1/2, and a transport whose send always fails. -/
theorem claim_C1_witness :
    (0 : ℚ) ≤ 1 / 2 ∧ (1 / 2 : ℚ) < 1
    ∧ sumCwnd [⟨1, 3⟩, ⟨2, 1⟩] < 2 ^ 32 ∧ 0 < sumCwnd [⟨1, 3⟩, ⟨2, 1⟩]
    ∧ ∃ k, ∃ hk : k < ([⟨1, 3⟩, ⟨2, 1⟩] : List FaceMetric).length,
      (∀ j, j < k →
        ¬ ((1 / 2 : ℚ) ≤ (prefixCwnd [⟨1, 3⟩, ⟨2, 1⟩] (j + 1) : ℚ) /
            (totalCwnd [⟨1, 3⟩, ⟨2, 1⟩] : ℚ)))
      ∧ ((1 / 2 : ℚ) ≤ (prefixCwnd [⟨1, 3⟩, ⟨2, 1⟩] (k + 1) : ℚ) /
          (totalCwnd [⟨1, 3⟩, ⟨2, 1⟩] : ℚ))
      ∧ (doPropagateInterest (fun _ => false) (1 / 2) [⟨1, 3⟩, ⟨2, 1⟩]).attempted =
          [(([⟨1, 3⟩, ⟨2, 1⟩] : List FaceMetric).get ⟨k, hk⟩).face]
      ∧ (doPropagateInterest (fun _ => false) (1 / 2) [⟨1, 3⟩, ⟨2, 1⟩]).success =
          (fun _ => false) (([⟨1, 3⟩, ⟨2, 1⟩] : List FaceMetric).get ⟨k, hk⟩).face
      ∧ ((fun _ => false) (([⟨1, 3⟩, ⟨2, 1⟩] : List FaceMetric).get ⟨k, hk⟩).face = false →
          (doPropagateInterest (fun _ => false) (1 / 2) [⟨1, 3⟩, ⟨2, 1⟩]).success = false
          ∧ (doPropagateInterest (fun _ => false) (1 / 2) [⟨1, 3⟩, ⟨2, 1⟩]).decreased =
              [(([⟨1, 3⟩, ⟨2, 1⟩] : List FaceMetric).get ⟨k, hk⟩).face])
      ∧ ((fun _ => false) (([⟨1, 3⟩, ⟨2, 1⟩] : List FaceMetric).get ⟨k, hk⟩).face = true →
          (doPropagateInterest (fun _ => false) (1 / 2) [⟨1, 3⟩, ⟨2, 1⟩]).decreased = []) :=
  ⟨by norm_num, by norm_num, by decide, by decide,
   claim_C1 (fun _ => false) (1 / 2) [⟨1, 3⟩, ⟨2, 1⟩]
     (by norm_num) (by norm_num) (by decide) (by decide)⟩

/-! ## Claim C8 -/

theorem pcumRaw_nonneg (pw : ℚ → ℚ → ℚ) (q s : ℚ) (n : Nat)
    (hw : ∀ i, 1 ≤ i → i ≤ n → 0 < zipfWeight pw q s i) :
    ∀ i, i ≤ n → 0 ≤ pcumRaw pw q s i := by
  intro i
  induction i with
  | zero => intro _; exact le_refl 0
  | succ j ih =>
      intro hj
      show 0 ≤ pcumRaw pw q s j + zipfWeight pw q s (j + 1)
      exact add_nonneg (ih (Nat.le_of_succ_le hj))
        (le_of_lt (hw (j + 1) (Nat.succ_le_succ (Nat.zero_le j)) hj))

theorem pcumRaw_pos (pw : ℚ → ℚ → ℚ) (q s : ℚ) (n : Nat)
    (hw : ∀ i, 1 ≤ i → i ≤ n → 0 < zipfWeight pw q s i) :
    ∀ i, 1 ≤ i → i ≤ n → 0 < pcumRaw pw q s i := by
  intro i h1 h2
  cases i with
  | zero => exact absurd h1 (Nat.not_succ_le_zero 0)
  | succ j =>
      show 0 < pcumRaw pw q s j + zipfWeight pw q s (j + 1)
      exact add_pos_of_nonneg_of_pos
        (pcumRaw_nonneg pw q s n hw j (Nat.le_of_succ_le h2))
        (hw (j + 1) (Nat.succ_le_succ (Nat.zero_le j)) h2)

theorem buildPcum_getD (pw : ℚ → ℚ → ℚ) (q s : ℚ) (n i : Nat) (hi : i ≤ n) :
    (buildPcum pw q s n).getD i 0 =
      if i = 0 then 0 else pcumRaw pw q s i / pcumRaw pw q s n := by
  unfold buildPcum
  rw [List.getD_eq_getElem?_getD, List.getElem?_map, List.getElem?_range
    (Nat.lt_succ_of_le hi)]
  rfl

/-- Claim C8 counterexample: the claim quantifies over every catalog
size, but at `N = 0` (weights modelled at `s = 0`, where every
`pow (i + q, 0)` is exactly 1) both construction loops are empty, the
table is the single entry `[0]`, and `cumulative[N]` is 0, not 1. -/
theorem claim_C8_counterexample :
    buildPcum (fun _ _ => 1) 0 0 0 = [0]
    ∧ (buildPcum (fun _ _ => 1) 0 0 0).getD 0 0 ≠ 1 := by
  constructor
  · rfl
  · intro h
    have h0 : ((0 : ℚ)) = 1 := h
    norm_num at h0

/-- Claim C8 (amended): for every catalog size `N >= 1` and all
parameters `q`, `s` for which each weight `1 / pow (i + q, s)`
(`1 <= i <= N`) is positive — which holds in particular for every
`q >= 0` — the table built by the catalog-size setter has length
`N + 1`, starts at `cumulative[0] = 0`, satisfies the pre-normalization
recurrence `cumulative[i] = cumulative[i-1] + 1 / pow (i + q, s)`, has
every entry of index 1..N divided by the unnormalized `cumulative[N]`,
and the normalized result is non-decreasing with `cumulative[N] = 1`. -/
theorem claim_C8_amended (pw : ℚ → ℚ → ℚ) (q s : ℚ) (n : Nat)
    (hn : 1 ≤ n)
    (hw : ∀ i, 1 ≤ i → i ≤ n → 0 < zipfWeight pw q s i) :
    (buildPcum pw q s n).length = n + 1
    ∧ (buildPcum pw q s n).getD 0 0 = 0
    ∧ (∀ i, 1 ≤ i → i ≤ n →
        pcumRaw pw q s i = pcumRaw pw q s (i - 1) + zipfWeight pw q s i)
    ∧ (∀ i, 1 ≤ i → i ≤ n →
        (buildPcum pw q s n).getD i 0 = pcumRaw pw q s i / pcumRaw pw q s n)
    ∧ List.Chain' (· ≤ ·) (buildPcum pw q s n)
    ∧ (buildPcum pw q s n).getD n 0 = 1 := by
  have hnpos : 0 < pcumRaw pw q s n := pcumRaw_pos pw q s n hw n hn le_rfl
  refine ⟨?_, ?_, ?_, ?_, ?_, ?_⟩
  · simp [buildPcum]
  · rw [buildPcum_getD pw q s n 0 (Nat.zero_le n)]
    rfl
  · intro i h1 _
    cases i with
    | zero => exact absurd h1 (Nat.not_succ_le_zero 0)
    | succ j => simp [pcumRaw]
  · intro i h1 h2
    rw [buildPcum_getD pw q s n i h2, if_neg (by omega)]
  · rw [List.chain'_iff_get]
    intro i hi
    have hlen : (buildPcum pw q s n).length = n + 1 := by simp [buildPcum]
    rw [hlen] at hi
    have hi1 : i ≤ n := by omega
    have hi2 : i + 1 ≤ n := by omega
    have hget : ∀ j (hj : j < (buildPcum pw q s n).length),
        (buildPcum pw q s n).get ⟨j, hj⟩ = (buildPcum pw q s n).getD j 0 := by
      intro j hj
      rw [List.getD_eq_getElem?_getD, List.getElem?_eq_getElem hj]
      rfl
    simp only [hget]
    rw [buildPcum_getD pw q s n i hi1, buildPcum_getD pw q s n (i + 1) hi2,
      if_neg (Nat.succ_ne_zero i)]
    by_cases h0 : i = 0
    · rw [if_pos h0]
      exact div_nonneg
        (pcumRaw_nonneg pw q s n hw (i + 1) hi2) (le_of_lt hnpos)
    · rw [if_neg h0]
      refine (div_le_div_iff_of_pos_right hnpos).mpr ?_
      show pcumRaw pw q s i ≤ pcumRaw pw q s i + zipfWeight pw q s (i + 1)
      exact le_add_of_nonneg_right (le_of_lt (hw (i + 1)
        (Nat.succ_le_succ (Nat.zero_le i)) hi2))
  · rw [buildPcum_getD pw q s n n le_rfl, if_neg (by omega),
      div_self (ne_of_gt hnpos)]

/-- Witness for the amended claim C8 at a concrete input: catalog size
2, `q = 0`, `s = 1` (the power function is the identity in its first
argument, so the weights are `1/1` and `1/2`). -/
theorem claim_C8_amended_witness :
    (1 ≤ 2)
    ∧ (∀ i, 1 ≤ i → i ≤ 2 → 0 < zipfWeight (fun a _ => a) 0 1 i)
    ∧ List.Chain' (· ≤ ·) (buildPcum (fun a _ => a) 0 1 2)
    ∧ (buildPcum (fun a _ => a) 0 1 2).getD 2 0 = 1 :=
  ⟨by norm_num,
   by
    intro i h1 h2
    interval_cases i <;> norm_num [zipfWeight],
   (claim_C8_amended (fun a _ => a) 0 1 2 (by norm_num)
     (by intro i h1 h2; interval_cases i <;> norm_num [zipfWeight])).2.2.2.2.1,
   (claim_C8_amended (fun a _ => a) 0 1 2 (by norm_num)
     (by intro i h1 h2; interval_cases i <;> norm_num [zipfWeight])).2.2.2.2.2⟩

/-! ## Claim C4 -/

theorem scheduleNextPacket_core (st : ConsumerState) :
    (scheduleNextPacket st).1.m_active = st.m_active
    ∧ (scheduleNextPacket st).1.m_seq = st.m_seq
    ∧ (scheduleNextPacket st).1.m_seqMax = st.m_seqMax
    ∧ (scheduleNextPacket st).1.m_requestMode = st.m_requestMode := by
  unfold scheduleNextPacket
  split_ifs <;> simp

theorem sendPacket_retx (draws : List ℚ) (now : ℚ) (st : ConsumerState)
    (s : Nat) (rest : List Nat)
    (hact : st.m_active = true) (hretx : st.m_retxSeqs = s :: rest)
    (hs : s ≠ uint32Max) :
    sendPacket draws now st =
      SendResult.ok
        (scheduleNextPacket
          (willSendOutInterest now s { st with m_retxSeqs := rest })).1
        (some s) := by
  simp [sendPacket, hact, hretx, hs]

theorem sendPacket_sentinel_pop (draws : List ℚ) (now : ℚ)
    (st : ConsumerState) (rest : List Nat)
    (hact : st.m_active = true) (hretx : st.m_retxSeqs = uint32Max :: rest)
    (hmode : st.m_requestMode = RequestMode.sequential)
    (hnostop : ¬ (st.m_seqMax ≠ uint32Max ∧ st.m_seqMax ≤ st.m_seq)) :
    sendPacket draws now st =
      SendResult.ok
        (scheduleNextPacket
          (willSendOutInterest now st.m_seq
            { st with m_retxSeqs := rest,
                      m_seq := (st.m_seq + 1) % 2 ^ 32 })).1
        (some st.m_seq) := by
  simp [sendPacket, hact, hretx, hmode, hnostop]

theorem sendPacket_done (draws : List ℚ) (now : ℚ) (st : ConsumerState)
    (hact : st.m_active = true) (hretx : st.m_retxSeqs = [])
    (hmax : st.m_seqMax ≠ uint32Max) (hge : st.m_seqMax ≤ st.m_seq) :
    sendPacket draws now st = SendResult.ok st none := by
  simp [sendPacket, hact, hretx, hmax, hge]

theorem sendPacket_sequential (draws : List ℚ) (now : ℚ) (st : ConsumerState)
    (hact : st.m_active = true) (hretx : st.m_retxSeqs = [])
    (hmode : st.m_requestMode = RequestMode.sequential)
    (hnostop : ¬ (st.m_seqMax ≠ uint32Max ∧ st.m_seqMax ≤ st.m_seq)) :
    sendPacket draws now st =
      SendResult.ok
        (scheduleNextPacket
          (willSendOutInterest now st.m_seq
            { st with m_seq := (st.m_seq + 1) % 2 ^ 32 })).1
        (some st.m_seq) := by
  simp [sendPacket, hact, hretx, hmode, hnostop]

theorem runTicks_sequential (k : Nat) :
    ∀ st : ConsumerState,
      st.m_active = true → st.m_retxSeqs = [] →
      st.m_requestMode = RequestMode.sequential →
      st.m_seqMax ≠ uint32Max → st.m_seqMax < 2 ^ 32 →
      (runTicks [] 0 k st).1 =
        List.range' st.m_seq (min k (st.m_seqMax - st.m_seq)) := by
  induction k with
  | zero =>
      intro st _ _ _ _ _
      simp [runTicks]
  | succ k ih =>
      intro st h1 h2 h3 h4 h5
      by_cases hge : st.m_seqMax ≤ st.m_seq
      · have hstep : sendPacket [] 0 { st with m_sendEventRunning := false } =
            SendResult.ok { st with m_sendEventRunning := false } none :=
          sendPacket_done [] 0 _ h1 h2 h4 hge
        show (match sendPacket [] 0 { st with m_sendEventRunning := false } with
          | SendResult.ok st2 (some s) =>
              let r := runTicks [] 0 k st2
              (s :: r.1, r.2)
          | SendResult.ok st2 none => runTicks [] 0 k st2
          | _ => ([], st)).1 = _
        rw [hstep]
        rw [ih { st with m_sendEventRunning := false } h1 h2 h3 h4 h5]
        rw [Nat.sub_eq_zero_of_le hge]
        simp
      · have hlt : st.m_seq < st.m_seqMax := Nat.lt_of_not_le hge
        have hmod : (st.m_seq + 1) % 2 ^ 32 = st.m_seq + 1 :=
          Nat.mod_eq_of_lt (by omega)
        have hstep : sendPacket [] 0 { st with m_sendEventRunning := false } =
            SendResult.ok
              (scheduleNextPacket
                (willSendOutInterest 0 st.m_seq
                  { st with m_sendEventRunning := false,
                            m_seq := (st.m_seq + 1) % 2 ^ 32 })).1
              (some st.m_seq) :=
          sendPacket_sequential [] 0 _ h1 h2 h3 (fun hc => hge hc.2)
        show (match sendPacket [] 0 { st with m_sendEventRunning := false } with
          | SendResult.ok st2 (some s) =>
              let r := runTicks [] 0 k st2
              (s :: r.1, r.2)
          | SendResult.ok st2 none => runTicks [] 0 k st2
          | _ => ([], st)).1 = _
        rw [hstep]
        dsimp only
        set st2 := (scheduleNextPacket
          (willSendOutInterest 0 st.m_seq
            { st with m_sendEventRunning := false,
                      m_seq := (st.m_seq + 1) % 2 ^ 32 })).1 with hst2
        obtain ⟨hc1, hc2, hc3, hc4⟩ := scheduleNextPacket_core
          (willSendOutInterest 0 st.m_seq
            { st with m_sendEventRunning := false,
                      m_seq := (st.m_seq + 1) % 2 ^ 32 })
        have ha : st2.m_active = true := by rw [hst2, hc1]; exact h1
        have hb : st2.m_retxSeqs = [] := by
          rw [hst2, (scheduleNextPacket_fields _).1]; exact h2
        have hm : st2.m_requestMode = RequestMode.sequential := by
          rw [hst2, hc4]; exact h3
        have hx : st2.m_seqMax = st.m_seqMax := by
          rw [hst2, hc3]
          rfl
        have hq : st2.m_seq = st.m_seq + 1 := by rw [hst2, hc2]; exact hmod
        have := ih st2 ha hb hm (hx ▸ h4) (hx ▸ h5)
        rw [this, hq, hx]
        have hd : st.m_seqMax - st.m_seq = (st.m_seqMax - (st.m_seq + 1)) + 1 := by
          omega
        rw [hd, Nat.succ_min_succ, List.range'_succ]

/-- Claim C4 counterexample: with the sentinel value 4294967295 pending
retransmission on the `maxSequence = 5` sequential consumer, the
issuance attempt pops it from the queue but does not resend it — the
popped value equals the `uint32_t` sentinel marking "no retransmission",
so the fresh sequence 0 is issued instead and the retransmission is
silently dropped (the queue ends up empty). -/
theorem claim_C4_counterexample :
    retxSentinelState.m_retxSeqs = [4294967295]
    ∧ (∃ st2, sendPacket [] 0 retxSentinelState = SendResult.ok st2 (some 0)
        ∧ st2.m_retxSeqs = [])
    ∧ (0 : Nat) ≠ 4294967295 := by
  refine ⟨rfl, ?_, by decide⟩
  refine ⟨_, sendPacket_sentinel_pop [] 0 retxSentinelState [] rfl rfl rfl
    (by decide), ?_⟩
  rw [(scheduleNextPacket_fields _).1]
  rfl

/-- Claim C4 (amended): on every issuance attempt, a non-empty
retransmit queue takes precedence: one sequence is popped from it and,
unless it equals the `uint32_t` sentinel 4294967295 — which the source
misreads as "no retransmission", silently dropping that retransmission
and proceeding to fresh-sequence issuance from the popped queue — the
popped sequence is resent, leaving the sequential counter untouched;
with the queue empty and a configured maximum bound reached, nothing is
issued and the state is returned untouched (no rescheduling, no
error); consequently a sequential consumer with `maxSequence = 5`
starting at 0 issues exactly the sequences 0..4 no matter how many
issuance ticks occur. -/
theorem claim_C4_amended :
    (∀ (draws : List ℚ) (now : ℚ) (st : ConsumerState) (s : Nat)
        (rest : List Nat),
      st.m_active = true → st.m_retxSeqs = s :: rest → s ≠ uint32Max →
      ∃ st2, sendPacket draws now st = SendResult.ok st2 (some s)
        ∧ st2.m_retxSeqs = rest ∧ st2.m_seq = st.m_seq)
    ∧ (∀ (draws : List ℚ) (now : ℚ) (st : ConsumerState) (rest : List Nat),
        st.m_active = true → st.m_retxSeqs = uint32Max :: rest →
        st.m_requestMode = RequestMode.sequential →
        ¬ (st.m_seqMax ≠ uint32Max ∧ st.m_seqMax ≤ st.m_seq) →
        ∃ st2, sendPacket draws now st = SendResult.ok st2 (some st.m_seq)
          ∧ st2.m_retxSeqs = rest ∧ st2.m_seq = (st.m_seq + 1) % 2 ^ 32)
    ∧ (∀ (draws : List ℚ) (now : ℚ) (st : ConsumerState),
        st.m_active = true → st.m_retxSeqs = [] →
        st.m_seqMax ≠ uint32Max → st.m_seqMax ≤ st.m_seq →
        sendPacket draws now st = SendResult.ok st none)
    ∧ (∀ k, 5 ≤ k → (runTicks [] 0 k seqRunState).1 = [0, 1, 2, 3, 4]) := by
  refine ⟨?_, ?_, ?_, ?_⟩
  · intro draws now st s rest hact hretx hs
    refine ⟨(scheduleNextPacket
      (willSendOutInterest now s { st with m_retxSeqs := rest })).1,
      sendPacket_retx draws now st s rest hact hretx hs, ?_, ?_⟩
    · rw [(scheduleNextPacket_fields _).1]
      rfl
    · rw [(scheduleNextPacket_core _).2.1]
      rfl
  · intro draws now st rest hact hretx hmode hnostop
    refine ⟨(scheduleNextPacket
      (willSendOutInterest now st.m_seq
        { st with m_retxSeqs := rest,
                  m_seq := (st.m_seq + 1) % 2 ^ 32 })).1,
      sendPacket_sentinel_pop draws now st rest hact hretx hmode hnostop,
      ?_, ?_⟩
    · rw [(scheduleNextPacket_fields _).1]
      rfl
    · rw [(scheduleNextPacket_core _).2.1]
      rfl
  · intro draws now st hact hretx hmax hge
    exact sendPacket_done draws now st hact hretx hmax hge
  · intro k hk
    rw [runTicks_sequential k seqRunState rfl rfl rfl (by decide) (by decide)]
    have hmin : min k (seqRunState.m_seqMax - seqRunState.m_seq) = 5 := by
      show min k 5 = 5
      omega
    rw [hmin]
    rfl

/-- Witness for the amended claim C4 at concrete inputs: a pending
retransmission of sequence 9 takes precedence; the popped sentinel
4294967295 falls through to issuing the fresh sequence 0; a consumer
whose counter reached the bound issues nothing; six ticks on the
`maxSequence = 5` consumer issue exactly 0..4. -/
theorem claim_C4_amended_witness :
    (∃ st2, sendPacket [] 0 { seqRunState with m_retxSeqs := [9] } =
        SendResult.ok st2 (some 9)
      ∧ st2.m_retxSeqs = [] ∧ st2.m_seq = 0)
    ∧ (∃ st2, sendPacket [] 0 retxSentinelState =
        SendResult.ok st2 (some 0)
      ∧ st2.m_retxSeqs = [] ∧ st2.m_seq = 1 % 2 ^ 32)
    ∧ sendPacket [] 0 { seqRunState with m_seq := 5 } =
        SendResult.ok { seqRunState with m_seq := 5 } none
    ∧ (runTicks [] 0 6 seqRunState).1 = [0, 1, 2, 3, 4] :=
  ⟨claim_C4_amended.1 [] 0 { seqRunState with m_retxSeqs := [9] } 9 [] rfl rfl
     (by decide),
   claim_C4_amended.2.1 [] 0 retxSentinelState [] rfl rfl rfl (by decide),
   claim_C4_amended.2.2.1 [] 0 { seqRunState with m_seq := 5 } rfl rfl
     (by decide) (by decide),
   claim_C4_amended.2.2.2 6 (by decide)⟩

/-! ## Claim C10 -/

theorem zipfPick_fresh (pcum : List ℚ) (n : Nat) (pending : List SeqTimeout) :
    ∀ (draws : List ℚ) (s : Nat), zipfPick pcum n pending draws = some s →
      ∀ e ∈ pending, e.seq ≠ s := by
  intro draws
  induction draws with
  | nil =>
      intro s h
      exact absurd h (by simp [zipfPick])
  | cons d rest ih =>
      intro s h
      unfold zipfPick at h
      by_cases hd : d = 0
      · rw [if_pos hd] at h
        exact ih s h
      · rw [if_neg hd] at h
        dsimp only at h
        by_cases hdup :
            pending.any (fun e => decide (e.seq = getNextSeq pcum n d)) = true
        · rw [if_pos hdup] at h
          exact ih s h
        · rw [if_neg hdup] at h
          have hs : getNextSeq pcum n d = s := Option.some.inj h
          intro e he heq
          apply hdup
          rw [List.any_eq_true]
          exact ⟨e, he, decide_eq_true (heq.trans hs.symm)⟩

theorem zipfPick_terminates (pcum : List ℚ) (n : Nat)
    (pending : List SeqTimeout) :
    ∀ (draws : List ℚ) (r : ℚ), r ∈ draws → r ≠ 0 →
      (∀ e ∈ pending, e.seq ≠ getNextSeq pcum n r) →
      ∃ s, zipfPick pcum n pending draws = some s := by
  intro draws
  induction draws with
  | nil =>
      intro r hr
      exact absurd hr (List.not_mem_nil r)
  | cons d rest ih =>
      intro r hr hr0 hfresh
      rcases List.mem_cons.mp hr with rfl | hmem
      · unfold zipfPick
        rw [if_neg hr0]
        dsimp only
        by_cases hdup :
            pending.any (fun e => decide (e.seq = getNextSeq pcum n r)) = true
        · obtain ⟨e, he, hdec⟩ := List.any_eq_true.mp hdup
          exact absurd (of_decide_eq_true hdec) (hfresh e he)
        · rw [if_neg hdup]
          exact ⟨_, rfl⟩
      · unfold zipfPick
        by_cases hd : d = 0
        · rw [if_pos hd]
          exact ih r hmem hr0 hfresh
        · rw [if_neg hd]
          dsimp only
          by_cases hdup :
              pending.any (fun e => decide (e.seq = getNextSeq pcum n d)) = true
          · rw [if_pos hdup]
            exact ih r hmem hr0 hfresh
          · rw [if_neg hdup]
            exact ⟨_, rfl⟩

theorem sendPacket_zipf (draws : List ℚ) (now : ℚ) (st : ConsumerState)
    (hact : st.m_active = true) (hretx : st.m_retxSeqs = [])
    (hmode : st.m_requestMode = RequestMode.zipfMandelbrot)
    (hnostop : ¬ (st.m_seqMax ≠ uint32Max ∧ st.m_seqMax ≤ st.m_seq)) :
    sendPacket draws now st =
      (if st.m_N ≤ st.m_seqTimeouts.length then SendResult.assertExhausted
       else
        match zipfPick st.m_Pcum st.m_N st.m_seqTimeouts draws with
        | none => SendResult.drawsExhausted
        | some s =>
            SendResult.ok
              (scheduleNextPacket
                (willSendOutInterest now s
                  { st with m_seq := (st.m_seq + 1) % 2 ^ 32 })).1
              (some s)) := by
  simp [sendPacket, hact, hretx, hmode, hnostop]

theorem exists_fresh_seq (n : Nat) (pending : List SeqTimeout)
    (hnd : (pending.map (·.seq)).Nodup)
    (hbound : ∀ e ∈ pending, 1 ≤ e.seq ∧ e.seq ≤ n)
    (hcard : pending.length < n) :
    ∃ j, 1 ≤ j ∧ j ≤ n ∧ ∀ e ∈ pending, e.seq ≠ j := by
  have hsub : (pending.map (·.seq)).toFinset ⊆ Finset.Icc 1 n := by
    intro x hx
    rw [List.mem_toFinset, List.mem_map] at hx
    obtain ⟨e, he, rfl⟩ := hx
    rw [Finset.mem_Icc]
    exact hbound e he
  have hcardS : (pending.map (·.seq)).toFinset.card = pending.length := by
    rw [List.toFinset_card_of_nodup hnd, List.length_map]
  have hnsub : ¬ (Finset.Icc 1 n ⊆ (pending.map (·.seq)).toFinset) := by
    intro hsub2
    have hle := Finset.card_le_card hsub2
    rw [Nat.card_Icc, hcardS] at hle
    omega
  obtain ⟨j, hj1, hj2⟩ := Finset.not_subset.mp hnsub
  rw [Finset.mem_Icc] at hj1
  refine ⟨j, hj1.1, hj1.2, ?_⟩
  intro e he heq
  apply hj2
  rw [List.mem_toFinset, List.mem_map]
  exact ⟨e, he, heq⟩

/-- Claim C10: in popularity mode every sequence produced by the
duplicate-rejecting draw loop is distinct from all currently pending
sequences; with the whole catalog pending the send fails fast on the
catalog-exhaustion assertion before drawing at all; with fewer than `N`
items pending the assertion branch is unreachable, the re-draw loop
terminates with a fresh sequence as soon as the random stream yields a
draw mapping to a non-pending index, and such a fresh index always
exists. -/
theorem claim_C10 :
    (∀ (pcum : List ℚ) (n : Nat) (pending : List SeqTimeout)
        (draws : List ℚ) (s : Nat),
      zipfPick pcum n pending draws = some s → ∀ e ∈ pending, e.seq ≠ s)
    ∧ (∀ (draws : List ℚ) (now : ℚ) (st : ConsumerState),
        st.m_active = true → st.m_retxSeqs = [] →
        st.m_requestMode = RequestMode.zipfMandelbrot →
        (st.m_seqMax = uint32Max ∨ st.m_seq < st.m_seqMax) →
        st.m_N ≤ st.m_seqTimeouts.length →
        sendPacket draws now st = SendResult.assertExhausted)
    ∧ (∀ (draws : List ℚ) (now : ℚ) (st : ConsumerState),
        st.m_active = true → st.m_retxSeqs = [] →
        st.m_requestMode = RequestMode.zipfMandelbrot →
        st.m_seqTimeouts.length < st.m_N →
        sendPacket draws now st ≠ SendResult.assertExhausted)
    ∧ (∀ (pcum : List ℚ) (n : Nat) (pending : List SeqTimeout)
        (draws : List ℚ) (r : ℚ), r ∈ draws → r ≠ 0 →
        (∀ e ∈ pending, e.seq ≠ getNextSeq pcum n r) →
        ∃ s, zipfPick pcum n pending draws = some s
          ∧ ∀ e ∈ pending, e.seq ≠ s)
    ∧ (∀ (n : Nat) (pending : List SeqTimeout),
        (pending.map (·.seq)).Nodup →
        (∀ e ∈ pending, 1 ≤ e.seq ∧ e.seq ≤ n) → pending.length < n →
        ∃ j, 1 ≤ j ∧ j ≤ n ∧ ∀ e ∈ pending, e.seq ≠ j) := by
  have hnostop : ∀ st : ConsumerState,
      (st.m_seqMax = uint32Max ∨ st.m_seq < st.m_seqMax) →
      ¬ (st.m_seqMax ≠ uint32Max ∧ st.m_seqMax ≤ st.m_seq) := by
    intro st hd hc
    rcases hd with h | h
    · exact hc.1 h
    · omega
  refine ⟨zipfPick_fresh, ?_, ?_, ?_, exists_fresh_seq⟩
  · intro draws now st h1 h2 h3 h4 h5
    rw [sendPacket_zipf draws now st h1 h2 h3 (hnostop st h4), if_pos h5]
  · intro draws now st h1 h2 h3 h4
    have h5 : st.m_seqMax = uint32Max ∨ st.m_seq < st.m_seqMax ∨
        st.m_seqMax ≤ st.m_seq := by omega
    by_cases hstop : st.m_seqMax ≠ uint32Max ∧ st.m_seqMax ≤ st.m_seq
    · rw [sendPacket_done draws now st h1 h2 hstop.1 hstop.2]
      intro hc
      exact SendResult.noConfusion hc
    · rw [sendPacket_zipf draws now st h1 h2 h3 hstop,
        if_neg (Nat.not_le_of_lt h4)]
      cases hz : zipfPick st.m_Pcum st.m_N st.m_seqTimeouts draws with
      | none =>
          intro hc
          exact SendResult.noConfusion hc
      | some s =>
          intro hc
          exact SendResult.noConfusion hc
  · intro pcum n pending draws r hmem hr0 hfresh
    obtain ⟨s, hs⟩ := zipfPick_terminates pcum n pending draws r hmem hr0 hfresh
    exact ⟨s, hs, zipfPick_fresh pcum n pending draws s hs⟩

/-- Witness for claim C10 at concrete inputs: a catalog-size-3 consumer
with all three items pending hits the assertion; with one item pending
the assertion branch is not taken; on the table `[0, 2, 5, 9]` the draw
3 maps to index 2, which is fresh with only item 1 pending, so the loop
returns it; and a fresh index exists. -/
theorem claim_C10_witness :
    sendPacket [] 0 zipfEx = SendResult.assertExhausted
    ∧ sendPacket [3] 0 zipfOk ≠ SendResult.assertExhausted
    ∧ (∃ s, zipfPick [0, 2, 5, 9] 3 [⟨1, 0⟩] [3] = some s
        ∧ ∀ e ∈ ([⟨1, 0⟩] : List SeqTimeout), e.seq ≠ s)
    ∧ (∀ e ∈ ([⟨1, 0⟩] : List SeqTimeout), e.seq ≠ 2)
    ∧ (∃ j, 1 ≤ j ∧ j ≤ 3 ∧ ∀ e ∈ ([⟨1, 0⟩] : List SeqTimeout), e.seq ≠ j) :=
  ⟨claim_C10.2.1 [] 0 zipfEx rfl rfl rfl (Or.inl rfl) (by decide),
   claim_C10.2.2.1 [3] 0 zipfOk rfl rfl rfl (by decide),
   claim_C10.2.2.2.1 [0, 2, 5, 9] 3 [⟨1, 0⟩] [3] 3 (by decide) (by decide)
     (by decide),
   claim_C10.1 [0, 2, 5, 9] 3 [⟨1, 0⟩] [3] 2 (by decide),
   claim_C10.2.2.2.2 3 [⟨1, 0⟩] (by decide) (by decide) (by decide)⟩

end NdnSim
